import Mathlib

/-!
Verification of the binance-ohlcv-collector core pipeline against its
natural-language specification.

The Python source is shallowly embedded: pandas tables become lists of
association-list rows, dates become explicit year/month/day records compared
lexicographically (the comparison semantics of Python date objects), HTTP
traffic becomes explicit oracles mapping attempts to outcomes, and exceptions
become Except values.  Machine-level concerns (actual sockets, the SHA-256
compression function, file descriptors) are parameters of the embedding, never
assumed to have particular values.
-/

/-! ## Processor model (src/binance_ohlcv_collector/processor.py)

A pandas row is modelled as an association list from column name to an integer
cell value (timestamps are epoch milliseconds; price/volume cells are likewise
carried as integers, which is enough because the merge stage never computes
with them).  A DataFrame is a list of such rows.
-/

abbrev Cell := Int

abbrev PRow := List (String × Cell)

/-- Read a cell of a row by column name; pandas column access on the rows the
decoder produces always finds the column, so the default value 0 used for an
absent column is never reached on well-formed inputs. -/
def rowCell (r : PRow) (c : String) : Cell :=
  match r.find? (fun p => p.1 == c) with
  | some p => p.2
  | none => 0

/-- Configuration constant KLINE_COLUMNS from config.py. -/
def KLINE_COLUMNS : List String :=
  ["open_time", "open", "high", "low", "close", "volume", "close_time",
   "quote_volume", "count", "taker_buy_volume", "taker_buy_quote_volume", "ignore"]

/-- Configuration constant OUTPUT_COLUMNS from config.py. -/
def OUTPUT_COLUMNS : List String :=
  ["timestamp", "open", "high", "low", "close", "volume"]

/-- Model of pandas to_datetime(column, unit="ms", utc=True): an injective,
monotone reinterpretation of epoch milliseconds as a UTC timestamp, embedded
as the identity on the underlying integer. -/
def to_datetime (ms : Cell) : Cell := ms

/-- Model of the column assignment
combined["timestamp"] = to_datetime(combined["open_time"]) on one row:
any stale "timestamp" entry is replaced and the fresh value appended. -/
def setTimestamp (r : PRow) : PRow :=
  r.filter (fun p => ¬ p.1 == "timestamp") ++
    [("timestamp", to_datetime (rowCell r "open_time"))]

/-- The timestamp key of a row, as read by sort_values and drop_duplicates. -/
def tsKey (r : PRow) : Cell := rowCell r "timestamp"

/-- Comparison used by sort_values("timestamp"). -/
def rowLE (a b : PRow) : Bool := decide (tsKey a ≤ tsKey b)

/-- Model of drop_duplicates(subset=["timestamp"]) with the default
keep="first": scan left to right, keeping a row exactly when its timestamp has
not been seen yet. -/
def drop_duplicates_ts (seen : List Cell) : List PRow → List PRow
  | [] => []
  | r :: l =>
      if tsKey r ∈ seen then drop_duplicates_ts seen l
      else r :: drop_duplicates_ts (tsKey r :: seen) l

/-- Model of combined[OUTPUT_COLUMNS] on one row: project to the output
columns, in output-column order. -/
def projectRow (r : PRow) : PRow :=
  OUTPUT_COLUMNS.map (fun c => (c, rowCell r c))
/-- Contract of pandas sort_values("timestamp") with the default unstable
quicksort kind: the library guarantees only that the result is a permutation
of the input rows ordered by the timestamp key; the relative order of rows
with equal timestamps is unspecified.  The merge pipeline is therefore
parameterized by an arbitrary function satisfying this contract, and every
theorem about it quantifies over all such functions. -/
def SortValuesSpec (sort_values : List PRow → List PRow) : Prop :=
  ∀ l : List PRow, (sort_values l).Perm l ∧
    (sort_values l).Pairwise (fun a b => rowLE a b = true)

/-- Model of process_zip_files on the already-decoded tables: concatenate,
derive the timestamp column, sort by timestamp with any behavior the unstable
sort_values may exhibit (the sort_values parameter, constrained by
SortValuesSpec where a theorem needs it), deduplicate by timestamp keeping the
first row in post-sort order, and project to OUTPUT_COLUMNS.  The source's
empty-input early return produces the same empty list this definition
produces on []. -/
def process_zip_files (sort_values : List PRow → List PRow)
    (tables : List (List PRow)) : List PRow :=
  let combined := tables.flatten
  let withTs := combined.map setTimestamp
  let sorted := sort_values withTs
  let deduped := drop_duplicates_ts [] sorted
  deduped.map projectRow

/-- The concatenated input after the timestamp column has been derived; the
reference point for the first-occurrence question. -/
def preparedRows (tables : List (List PRow)) : List PRow :=
  (tables.flatten).map setTimestamp

/-- One behavior admitted by SortValuesSpec: a stable sort. -/
def sort_values_ts (l : List PRow) : List PRow := l.mergeSort rowLE

/-- Another behavior admitted by SortValuesSpec: reverse the rows first, then
sort stably, so rows with equal timestamps come out in reversed input order —
a tie order the unstable quicksort is free to produce. -/
def badSort (l : List PRow) : List PRow := l.reverse.mergeSort rowLE

/-- First concrete input row for the merge counterexample and witness: open
time 5, open price 10. -/
def c1Row1 : PRow := [("open_time", (5 : Int)), ("open", 10)]

/-- Second concrete input row: the same open time 5, but open price 20. -/
def c1Row2 : PRow := [("open_time", (5 : Int)), ("open", 20)]

lemma tsKey_projectRow (r : PRow) : tsKey (projectRow r) = tsKey r := by
  simp [tsKey, projectRow, OUTPUT_COLUMNS, rowCell, List.find?]

lemma projectRow_fst (r : PRow) : (projectRow r).map Prod.fst = OUTPUT_COLUMNS := rfl

lemma rowLE_trans : ∀ a b c : PRow, rowLE a b = true → rowLE b c = true → rowLE a c = true := by
  intro a b c hab hbc
  simp only [rowLE, decide_eq_true_eq] at *
  exact le_trans hab hbc

lemma rowLE_total : ∀ a b : PRow, (rowLE a b || rowLE b a) = true := by
  intro a b
  simp only [rowLE, Bool.or_eq_true, decide_eq_true_eq]
  exact Int.le_total _ _

lemma sort_values_ts_spec : SortValuesSpec sort_values_ts := by
  intro l
  exact ⟨List.mergeSort_perm l rowLE, List.sorted_mergeSort rowLE_trans rowLE_total l⟩

lemma badSort_spec : SortValuesSpec badSort := by
  intro l
  exact ⟨(List.mergeSort_perm _ rowLE).trans (List.reverse_perm l),
    List.sorted_mergeSort rowLE_trans rowLE_total _⟩

lemma drop_duplicates_sublist : ∀ (l : List PRow) (seen : List Cell),
    (drop_duplicates_ts seen l).Sublist l := by
  intro l
  induction l with
  | nil => intro seen; simp [drop_duplicates_ts]
  | cons r l ih =>
      intro seen
      by_cases h : tsKey r ∈ seen
      · simpa [drop_duplicates_ts, h] using (ih seen).cons r
      · simpa [drop_duplicates_ts, h] using (ih (tsKey r :: seen)).cons₂ r

lemma drop_duplicates_keys : ∀ (l : List PRow) (seen : List Cell),
    (∀ r ∈ drop_duplicates_ts seen l, tsKey r ∉ seen) ∧
    (drop_duplicates_ts seen l).Pairwise (fun a b => tsKey a ≠ tsKey b) := by
  intro l
  induction l with
  | nil => intro seen; simp [drop_duplicates_ts]
  | cons r l ih =>
      intro seen
      by_cases h : tsKey r ∈ seen
      · simpa [drop_duplicates_ts, h] using ih seen
      · simp only [drop_duplicates_ts, h, if_false]
        refine ⟨?_, ?_⟩
        · intro s hs
          rcases List.mem_cons.mp hs with hs | hs
          · subst hs; exact h
          · have := (ih (tsKey r :: seen)).1 s hs
            simp only [List.mem_cons, not_or] at this
            exact this.2
        · refine List.pairwise_cons.mpr ⟨?_, (ih (tsKey r :: seen)).2⟩
          intro s hs
          have := (ih (tsKey r :: seen)).1 s hs
          simp only [List.mem_cons, not_or] at this
          exact fun hEq => this.1 hEq.symm

lemma drop_duplicates_cover : ∀ (l : List PRow) (seen : List Cell) (t : Cell),
    t ∈ l.map tsKey → t ∉ seen → t ∈ (drop_duplicates_ts seen l).map tsKey := by
  intro l
  induction l with
  | nil => intro seen t ht _; simp at ht
  | cons r l ih =>
      intro seen t ht hseen
      rw [List.map_cons] at ht
      rcases List.mem_cons.mp ht with hfst | htl
      · by_cases hc : tsKey r ∈ seen
        · exact absurd (hfst ▸ hc) hseen
        · simp only [drop_duplicates_ts, hc, if_false, List.map_cons,
            List.mem_cons]
          exact Or.inl hfst
      · by_cases hc : tsKey r ∈ seen
        · simp only [drop_duplicates_ts, hc, if_true]
          exact ih seen t htl hseen
        · by_cases heq : t = tsKey r
          · simp only [drop_duplicates_ts, hc, if_false, List.map_cons,
              List.mem_cons]
            exact Or.inl heq
          · have hseen2 : t ∉ tsKey r :: seen := by
              intro hmem
              rcases List.mem_cons.mp hmem with hmem | hmem
              · exact heq hmem
              · exact hseen hmem
            simp only [drop_duplicates_ts, hc, if_false, List.map_cons,
              List.mem_cons]
            exact Or.inr (ih (tsKey r :: seen) t htl hseen2)

lemma perm_pair_eq (l : List PRow) (a : PRow) (h : l.Perm [a, a]) : l = [a, a] := by
  have hmem : ∀ x ∈ l, x = a := by
    intro x hx
    have := h.subset hx
    simpa using this
  have hlen : l.length = 2 := by simpa using h.length_eq
  match l, hlen with
  | [x, y], _ =>
      rw [hmem x (by simp), hmem y (by simp)]

/-- C1 counterexample: two single-row tables sharing the open time 5 but with
different open prices; badSort is a sorted permutation of the prepared rows
(first two conjuncts), i.e. a behavior the unstable sort_values is free to
exhibit, under which the merge keeps the projection of the second occurrence,
although the first occurrence in input order is the row with price 10 — so the
merge does not keep the first occurrence of a duplicated timestamp. -/
theorem C1_keep_first_counterexample :
    (badSort (preparedRows [[c1Row1], [c1Row2]])).Perm
      (preparedRows [[c1Row1], [c1Row2]]) ∧
    (badSort (preparedRows [[c1Row1], [c1Row2]])).Pairwise
      (fun a b => rowLE a b = true) ∧
    (preparedRows [[c1Row1], [c1Row2]]).find?
      (fun q => tsKey q == (5 : Int)) = some (setTimestamp c1Row1) ∧
    process_zip_files badSort [[c1Row1], [c1Row2]] =
      [projectRow (setTimestamp c1Row2)] ∧
    projectRow (setTimestamp c1Row2) ≠ projectRow (setTimestamp c1Row1) := by
  have hprep : preparedRows [[c1Row1], [c1Row2]] =
      [setTimestamp c1Row1, setTimestamp c1Row2] := rfl
  have hbad : badSort [setTimestamp c1Row1, setTimestamp c1Row2] =
      [setTimestamp c1Row2, setTimestamp c1Row1] := by
    show ([setTimestamp c1Row1, setTimestamp c1Row2].reverse).mergeSort rowLE = _
    rw [show ([setTimestamp c1Row1, setTimestamp c1Row2] : List PRow).reverse =
      [setTimestamp c1Row2, setTimestamp c1Row1] from rfl]
    exact List.mergeSort_of_sorted (by decide)
  refine ⟨?_, ?_, ?_, ?_, ?_⟩
  · rw [hprep, hbad]
    decide
  · rw [hprep, hbad]
    decide
  · rfl
  · show (drop_duplicates_ts []
        (badSort (preparedRows [[c1Row1], [c1Row2]]))).map projectRow = _
    rw [hprep, hbad]
    decide
  · decide

/-- C1, amended for the unstable sort: for every sorted-permutation behavior
of sort_values and every sequence of input tables, the merged table has
strictly increasing timestamps (hence no duplicates), every row carries
exactly the columns OUTPUT_COLUMNS, every row is the projection of some input
row, every input timestamp is represented, and merging two identical
single-row tables yields exactly one row.  Which of several rows sharing a
timestamp survives is deliberately not asserted. -/
theorem C1_merge_invariants (sort_values : List PRow → List PRow)
    (hspec : SortValuesSpec sort_values) (tables : List (List PRow)) :
    (process_zip_files sort_values tables).Pairwise
      (fun a b => tsKey a < tsKey b) ∧
    (∀ q ∈ process_zip_files sort_values tables,
        q.map Prod.fst = OUTPUT_COLUMNS) ∧
    (∀ q ∈ process_zip_files sort_values tables,
        ∃ r0 ∈ preparedRows tables, q = projectRow r0) ∧
    (∀ t : Cell, t ∈ (preparedRows tables).map tsKey →
        ∃ q ∈ process_zip_files sort_values tables, tsKey q = t) ∧
    (∀ r : PRow, (process_zip_files sort_values [[r], [r]]).length = 1) := by
  obtain ⟨hperm, hsorted⟩ := hspec (preparedRows tables)
  refine ⟨?_, ?_, ?_, ?_, ?_⟩
  · have hsub := drop_duplicates_sublist (sort_values (preparedRows tables)) []
    have hle := List.Pairwise.sublist hsub hsorted
    have hne := (drop_duplicates_keys (sort_values (preparedRows tables)) []).2
    have hlt : (drop_duplicates_ts [] (sort_values (preparedRows tables))).Pairwise
        (fun a b => tsKey a < tsKey b) := by
      refine (hle.and hne).imp ?_
      intro a b hab
      have h1 : tsKey a ≤ tsKey b := by
        have := hab.1
        simpa [rowLE] using this
      exact lt_of_le_of_ne h1 hab.2
    show ((drop_duplicates_ts [] (sort_values (preparedRows tables))).map
        projectRow).Pairwise (fun a b => tsKey a < tsKey b)
    refine List.pairwise_map.mpr ?_
    refine hlt.imp ?_
    intro a b hab
    rwa [tsKey_projectRow, tsKey_projectRow]
  · intro q hq
    have : ∃ s ∈ drop_duplicates_ts [] (sort_values (preparedRows tables)),
        projectRow s = q := List.mem_map.mp hq
    obtain ⟨s, _, rfl⟩ := this
    exact projectRow_fst s
  · intro q hq
    have : ∃ s ∈ drop_duplicates_ts [] (sort_values (preparedRows tables)),
        projectRow s = q := List.mem_map.mp hq
    obtain ⟨s, hs, rfl⟩ := this
    have hsS : s ∈ sort_values (preparedRows tables) :=
      (drop_duplicates_sublist _ []).mem hs
    exact ⟨s, hperm.subset hsS, rfl⟩
  · intro t ht
    have htS : t ∈ (sort_values (preparedRows tables)).map tsKey :=
      (hperm.map tsKey).mem_iff.mpr ht
    have htd := drop_duplicates_cover (sort_values (preparedRows tables)) [] t
      htS (by simp)
    obtain ⟨s, hs, hst⟩ := List.mem_map.mp htd
    refine ⟨projectRow s, List.mem_map_of_mem projectRow hs, ?_⟩
    rw [tsKey_projectRow]
    exact hst
  · intro r
    obtain ⟨hperm2, _⟩ := hspec [setTimestamp r, setTimestamp r]
    have hprep : preparedRows [[r], [r]] = [setTimestamp r, setTimestamp r] := by
      simp [preparedRows]
    have hsv : sort_values (preparedRows [[r], [r]]) =
        [setTimestamp r, setTimestamp r] := by
      rw [hprep]
      exact perm_pair_eq _ _ hperm2
    show ((drop_duplicates_ts []
        (sort_values (preparedRows [[r], [r]]))).map projectRow).length = 1
    rw [hsv]
    simp [drop_duplicates_ts]

/-- Witness for the amended C1 at the stable behavior sort_values_ts: merging
the same single-row table with itself yields one row, and merging two tables
sharing the open time 5 yields a row carrying that timestamp. -/
theorem C1_merge_invariants_witness :
    (process_zip_files sort_values_ts [[c1Row1], [c1Row1]]).length = 1 ∧
    (∃ q ∈ process_zip_files sort_values_ts [[c1Row1], [c1Row2]],
      tsKey q = (5 : Int)) :=
  ⟨(C1_merge_invariants sort_values_ts sort_values_ts_spec
      [[c1Row1], [c1Row1]]).2.2.2.2 c1Row1,
   (C1_merge_invariants sort_values_ts sort_values_ts_spec
      [[c1Row1], [c1Row2]]).2.2.2.1 5 (by decide)⟩

/-! ## Validation model (src/binance_ohlcv_collector/validation.py)

Timestamps are epoch milliseconds (Int); a timedelta of m minutes is embedded
as m * 60000 milliseconds.  The float tolerance factor and the 0.99 validity
threshold are modelled as the exact rationals 3/2 and 99/100, matching the
source's own "99% threshold" comment.  Python exceptions become an Except
error type distinguishing ValidationError from ValueError.
-/

/-- Constant TIMEFRAME_MINUTES from validation.py. -/
def TIMEFRAME_MINUTES : List (String × Nat) :=
  [("1m", 1), ("3m", 3), ("5m", 5), ("15m", 15), ("30m", 30), ("1h", 60),
   ("2h", 120), ("4h", 240), ("6h", 360), ("8h", 480), ("12h", 720),
   ("1d", 1440), ("3d", 4320), ("1w", 10080), ("1mo", 43200)]

/-- Constant VALID_TIMEFRAMES from config.py; its entries are exactly the keys
of TIMEFRAME_MINUTES. -/
def VALID_TIMEFRAMES : List String := TIMEFRAME_MINUTES.map Prod.fst

/-- Model of get_expected_interval: the membership test against
VALID_TIMEFRAMES (which coincides with the key set of the dictionary) and the
dictionary lookup collapse into one association-list lookup; failure is the
ValueError the source raises. -/
def get_expected_interval (timeframe : String) : Except String Int :=
  match TIMEFRAME_MINUTES.lookup timeframe with
  | some m => .ok ((m : Int) * 60000)
  | none => .error ("Invalid timeframe: " ++ timeframe)

/-- A detected gap; the field stop plays the role of the source's dataclass
field named end, which is a Lean keyword. -/
structure Gap where
  start : Int
  stop : Int
  missing_bars : Int

/-- The scan over consecutive timestamp deltas inside detect_gaps: a Gap is
emitted whenever a delta strictly exceeds the tolerance; the missing-bar count
is Python's int() truncation of delta divided by the expected interval, minus
one (Int.tdiv is truncation toward zero, as int() is). -/
def gapScan (expected : Int) (tolerance : ℚ) : List Int → List Gap
  | a :: b :: rest =>
      (if ((b - a : Int) : ℚ) > tolerance then
        [⟨a, b, (b - a).tdiv expected - 1⟩] else []) ++
        gapScan expected tolerance (b :: rest)
  | _ => []

/-- Comparison used when detect_gaps sorts the timestamp column. -/
def intLE (a b : Int) : Bool := decide (a ≤ b)

/-- Model of detect_gaps on the timestamp column: empty/short input returns no
gaps before the timeframe is even validated; otherwise the column is sorted
and consecutive deltas are scanned. -/
def detect_gaps (ts : List Int) (timeframe : String) (tolerance_factor : ℚ) :
    Except String (List Gap) :=
  if ts.length < 2 then .ok []
  else
    match get_expected_interval timeframe with
    | .error e => .error e
    | .ok expected =>
        .ok (gapScan expected ((expected : ℚ) * tolerance_factor)
          (ts.mergeSort intLE))

/-- Model of calculate_expected_bars: Python's int() truncation of the span
divided by the interval, plus one. -/
def calculate_expected_bars (start_time end_time : Int) (timeframe : String) :
    Except String Int :=
  match get_expected_interval timeframe with
  | .error e => .error e
  | .ok interval => .ok ((end_time - start_time).tdiv interval + 1)

/-- Exceptions escaping validate_dataframe: the source's ValidationError and
the ValueError raised for an invalid timeframe. -/
inductive VErr where
  | validationError (msg : String)
  | valueError (msg : String)

/-- Result dataclass ValidationResult from validation.py. -/
structure ValidationResult where
  is_valid : Bool
  total_bars : Nat
  expected_bars : Int
  gaps : List Gap
  warnings : List String

/-- A pandas DataFrame as seen by validate_dataframe: its column index and its
rows (the column index exists even when there are no rows). -/
structure VFrame where
  cols : List String
  rows : List PRow

/-- Minimum of a pandas series (nonempty in every use site; 0 is an arbitrary
value for the empty list, never reached). -/
def listMin : List Int → Int
  | [] => 0
  | a :: l => l.foldl min a

/-- Maximum of a pandas series, as listMin. -/
def listMax : List Int → Int
  | [] => 0
  | a :: l => l.foldl max a

/-- Model of validate_dataframe: empty input short-circuits to a valid report
before any column check; a missing timestamp column raises ValidationError;
the expected bar count and the gap scan reuse the interval lookup, whose
failure surfaces as the source's ValueError. -/
def validate_dataframe (df : VFrame) (timeframe : String) (check_gaps : Bool) :
    Except VErr ValidationResult :=
  if df.rows.isEmpty then
    .ok ⟨true, 0, 0, [], ["DataFrame is empty"]⟩
  else if "timestamp" ∉ df.cols then
    .error (.validationError "DataFrame is missing required timestamp column")
  else
    let tsvals := df.rows.map tsKey
    let total_bars := df.rows.length
    let start_time := listMin tsvals
    let end_time := listMax tsvals
    match calculate_expected_bars start_time end_time timeframe with
    | .error e => .error (.valueError e)
    | .ok expected_bars =>
      match (if check_gaps then detect_gaps tsvals timeframe (3 / 2) else .ok []) with
      | .error e => .error (.valueError e)
      | .ok gaps =>
        let w1 : List String :=
          if gaps.isEmpty then [] else
            ["Found " ++ toString gaps.length ++ " gap(s) in data"]
        let w2 : List String :=
          if (total_bars : Int) < expected_bars then
            ["Missing " ++ toString (expected_bars - (total_bars : Int)) ++
              " bars (have " ++ toString total_bars ++ ", expected " ++
              toString expected_bars ++ ")"]
          else []
        let is_valid := gaps.isEmpty &&
          decide ((total_bars : ℚ) ≥ (expected_bars : ℚ) * (99 / 100))
        .ok ⟨is_valid, total_bars, expected_bars, gaps, w1 ++ w2⟩

/-- Recognizer for the structural failure mode of validate_dataframe. -/
def isStructuralFailure : Except VErr ValidationResult → Bool
  | .error (.validationError _) => true
  | _ => false

/-- Evenly spaced test series: n timestamps spaced by c starting at t0. -/
def evenFrom (t0 c : Int) : Nat → List Int
  | 0 => []
  | n + 1 => t0 :: evenFrom (t0 + c) c n

lemma lookup_pos_of_all : ∀ (l : List (String × Nat)) (tf : String) (m : Nat),
    (∀ p ∈ l, 0 < p.2) → l.lookup tf = some m → 0 < m := by
  intro l
  induction l with
  | nil => intro tf m _ h; simp [List.lookup] at h
  | cons a l ih =>
      intro tf m hall h
      rw [List.lookup] at h
      by_cases hk : (tf == a.1) = true
      · rw [hk] at h
        have : a.2 = m := by simpa using h
        have := hall a (List.mem_cons_self a l)
        omega
      · have hk2 : (tf == a.1) = false := by
          cases h2 : (tf == a.1)
          · rfl
          · exact absurd h2 hk
        rw [hk2] at h
        exact ih tf m (fun p hp => hall p (List.mem_cons_of_mem a hp)) h

lemma get_expected_interval_pos (timeframe : String) (c : Int)
    (h : get_expected_interval timeframe = .ok c) : 0 < c := by
  unfold get_expected_interval at h
  cases hl : TIMEFRAME_MINUTES.lookup timeframe with
  | none => rw [hl] at h; exact absurd h (by simp)
  | some m =>
      rw [hl] at h
      have hm : 0 < m :=
        lookup_pos_of_all TIMEFRAME_MINUTES timeframe m (by decide) hl
      have hc : c = (m : Int) * 60000 := by
        cases h
        rfl
      subst hc
      positivity

lemma evenFrom_mem : ∀ (n : Nat) (t0 c x : Int), x ∈ evenFrom t0 c n →
    ∃ i : Nat, i < n ∧ x = t0 + c * (i : Int) := by
  intro n
  induction n with
  | zero => intro t0 c x h; simp [evenFrom] at h
  | succ n ih =>
      intro t0 c x h
      rw [evenFrom] at h
      rcases List.mem_cons.mp h with h | h
      · exact ⟨0, by omega, by simp [h]⟩
      · obtain ⟨i, hi, hx⟩ := ih (t0 + c) c x h
        refine ⟨i + 1, by omega, ?_⟩
        rw [hx]
        push_cast
        ring

lemma evenFrom_pairwise (c : Int) (hc : 0 ≤ c) : ∀ (n : Nat) (t0 : Int),
    (evenFrom t0 c n).Pairwise (fun a b => a ≤ b) := by
  intro n
  induction n with
  | zero => intro t0; simp [evenFrom]
  | succ n ih =>
      intro t0
      rw [evenFrom]
      refine List.pairwise_cons.mpr ⟨?_, ih (t0 + c)⟩
      intro x hx
      obtain ⟨i, _, hx⟩ := evenFrom_mem n (t0 + c) c x hx
      have : 0 ≤ c * (i : Int) := mul_nonneg hc (by positivity)
      omega

lemma gapScan_cons₂ (c : Int) (tol : ℚ) (a b : Int) (rest : List Int) :
    gapScan c tol (a :: b :: rest) =
      (if ((b - a : Int) : ℚ) > tol then [⟨a, b, (b - a).tdiv c - 1⟩] else []) ++
        gapScan c tol (b :: rest) := rfl

lemma gapScan_evenFrom (c : Int) (hc : 0 < c) : ∀ (n : Nat) (t0 : Int),
    gapScan c ((c : ℚ) * (3 / 2)) (evenFrom t0 c (n + 1)) = [] := by
  intro n
  induction n with
  | zero => intro t0; rfl
  | succ n ih =>
      intro t0
      have hcq : (0 : ℚ) < (c : ℚ) := by exact_mod_cast hc
      have hcond : ¬ (((t0 + c - t0 : Int) : ℚ) > (c : ℚ) * (3 / 2)) := by
        push_cast
        linarith
      have hunf : evenFrom t0 c (n + 1 + 1) =
          t0 :: (t0 + c) :: evenFrom (t0 + c + c) c n := by
        rw [evenFrom, evenFrom]
      rw [hunf, gapScan_cons₂, if_neg hcond, List.nil_append]
      have := ih (t0 + c)
      rwa [show evenFrom (t0 + c) c (n + 1) = (t0 + c) :: evenFrom (t0 + c + c) c n from by
        rw [evenFrom]] at this

lemma gapScan_skip (c : Int) (hc : 0 < c) (k : Nat) (hk : 2 ≤ k) :
    ∀ (m : Nat) (t0 s : Int) (j : Nat), s = t0 + c * (m : Int) + c * (k : Int) →
    gapScan c ((c : ℚ) * (3 / 2)) (evenFrom t0 c (m + 1) ++ evenFrom s c (j + 1)) =
      [⟨t0 + c * (m : Int), s, (k : Int) - 1⟩] := by
  intro m
  induction m with
  | zero =>
      intro t0 s j hs
      have hs0 : s = t0 + c * (k : Int) := by
        rw [hs]
        push_cast
        ring
      have hcq : (0 : ℚ) < (c : ℚ) := by exact_mod_cast hc
      have hkq : (2 : ℚ) ≤ (k : ℚ) := by exact_mod_cast hk
      have h2 : (c : ℚ) * 2 ≤ (c : ℚ) * (k : ℚ) :=
        mul_le_mul_of_nonneg_left hkq hcq.le
      have hunf : evenFrom t0 c (0 + 1) ++ evenFrom s c (j + 1) =
          t0 :: s :: evenFrom (s + c) c j := by
        rw [evenFrom, evenFrom, evenFrom]
        rfl
      have hcond : ((s - t0 : Int) : ℚ) > (c : ℚ) * (3 / 2) := by
        rw [hs0]
        push_cast
        linarith
      have hdiv : (s - t0).tdiv c = (k : Int) := by
        rw [hs0, show t0 + c * (k : Int) - t0 = c * (k : Int) from by ring]
        exact Int.mul_tdiv_cancel_left _ (ne_of_gt hc)
      have hrest : gapScan c ((c : ℚ) * (3 / 2)) (s :: evenFrom (s + c) c j) = [] := by
        have := gapScan_evenFrom c hc j s
        rwa [evenFrom] at this
      rw [hunf, gapScan_cons₂, if_pos hcond, hdiv, hrest]
      simp
  | succ m ih =>
      intro t0 s j hs
      have hs2 : s = (t0 + c) + c * (m : Int) + c * (k : Int) := by
        rw [hs]
        push_cast
        ring
      have hih := ih (t0 + c) s j hs2
      have hcq : (0 : ℚ) < (c : ℚ) := by exact_mod_cast hc
      have hcond : ¬ (((t0 + c - t0 : Int) : ℚ) > (c : ℚ) * (3 / 2)) := by
        push_cast
        linarith
      have hstart : (t0 + c) + c * (m : Int) = t0 + c * ((m + 1 : Nat) : Int) := by
        push_cast
        ring
      have hunf : evenFrom t0 c (m + 1 + 1) ++ evenFrom s c (j + 1) =
          t0 :: (evenFrom (t0 + c) c (m + 1) ++ evenFrom s c (j + 1)) := by
        rw [evenFrom]
        rfl
      have hunf2 : evenFrom (t0 + c) c (m + 1) ++ evenFrom s c (j + 1) =
          (t0 + c) :: (evenFrom (t0 + c + c) c m ++ evenFrom s c (j + 1)) := by
        rw [evenFrom]
        rfl
      rw [hunf, hunf2, gapScan_cons₂, if_neg hcond, List.nil_append, ← hunf2, hih, hstart]

lemma gapScan_eq_filterMap (c : Int) (tol : ℚ) : ∀ l : List Int,
    gapScan c tol l = (l.zip l.tail).filterMap (fun p =>
      if ((p.2 - p.1 : Int) : ℚ) > tol then
        some ⟨p.1, p.2, (p.2 - p.1).tdiv c - 1⟩ else none) := by
  intro l
  induction l with
  | nil => rfl
  | cons a l ih =>
      cases l with
      | nil => rfl
      | cons b rest =>
          by_cases h : tol < ((b : ℚ) - (a : ℚ))
          · have h2 : ((b - a : Int) : ℚ) > tol := by push_cast; exact h
            rw [gapScan_cons₂, if_pos h2, ih]
            simp [List.filterMap_cons, h]
          · have h2 : ¬ (((b - a : Int) : ℚ) > tol) := by push_cast; exact h
            rw [gapScan_cons₂, if_neg h2, ih]
            simp [List.filterMap_cons, h]

lemma zip_tail_le : ∀ l : List Int, l.Pairwise (fun a b => a ≤ b) →
    ∀ p ∈ l.zip l.tail, p.1 ≤ p.2 := by
  intro l
  induction l with
  | nil => intro _ p hp; simp at hp
  | cons a l ih =>
      intro hpair p hp
      cases l with
      | nil => simp at hp
      | cons b rest =>
          rcases List.mem_cons.mp hp with hp | hp
          · subst hp
            exact (List.pairwise_cons.mp hpair).1 b (List.mem_cons_self b rest)
          · exact ih (List.pairwise_cons.mp hpair).2 p hp

lemma tdiv_eq_floor (a b : Int) (ha : 0 ≤ a) (hb : 0 < b) :
    a.tdiv b = ⌊(a : ℚ) / (b : ℚ)⌋ := by
  have hbnat : ((b.toNat : Int)) = b := Int.toNat_of_nonneg hb.le
  have hq : ((b : Int) : ℚ) = ((b.toNat : Nat) : ℚ) := by
    rw [← hbnat]
    push_cast
    rfl
  rw [Int.tdiv_eq_ediv ha hb.le, hq, Rat.floor_intCast_div_natCast, hbnat]

lemma foldl_min_le : ∀ (r : List Int) (a : Int), r.foldl min a ≤ a := by
  intro r
  induction r with
  | nil => intro a; simp
  | cons b r ih =>
      intro a
      calc (b :: r).foldl min a = r.foldl min (min a b) := rfl
        _ ≤ min a b := ih (min a b)
        _ ≤ a := min_le_left a b

lemma le_foldl_max : ∀ (r : List Int) (a : Int), a ≤ r.foldl max a := by
  intro r
  induction r with
  | nil => intro a; simp
  | cons b r ih =>
      intro a
      calc a ≤ max a b := le_max_left a b
        _ ≤ r.foldl max (max a b) := ih (max a b)
        _ = (b :: r).foldl max a := rfl

lemma listMin_le_listMax (l : List Int) (h : l ≠ []) : listMin l ≤ listMax l := by
  cases l with
  | nil => exact absurd rfl h
  | cons a r =>
      calc listMin (a :: r) = r.foldl min a := rfl
        _ ≤ a := foldl_min_le r a
        _ ≤ r.foldl max a := le_foldl_max r a
        _ = listMax (a :: r) := rfl

lemma evenFrom_length (c : Int) : ∀ (n : Nat) (t0 : Int), (evenFrom t0 c n).length = n := by
  intro n
  induction n with
  | zero => intro t0; rfl
  | succ n ih => intro t0; rw [evenFrom]; simp [ih (t0 + c)]

lemma mergeSort_intLE_of_sorted (l : List Int) (h : l.Pairwise (fun a b => a ≤ b)) :
    l.mergeSort intLE = l := by
  refine List.mergeSort_of_sorted ?_
  refine h.imp ?_
  intro a b hab
  simpa [intLE] using hab

lemma detect_gaps_reduce (ts : List Int) (timeframe : String) (c : Int)
    (tolerance_factor : ℚ) (h2 : ¬ ts.length < 2)
    (hc : get_expected_interval timeframe = .ok c) :
    detect_gaps ts timeframe tolerance_factor =
      .ok (gapScan c ((c : ℚ) * tolerance_factor) (ts.mergeSort intLE)) := by
  simp only [detect_gaps, if_neg h2, hc]

lemma skip_list_sorted (c : Int) (hc : 0 ≤ c) (t0 : Int) (m j k : Nat) :
    (evenFrom t0 c (m + 1) ++
      evenFrom (t0 + c * (m : Int) + c * (k : Int)) c (j + 1)).Pairwise
      (fun a b => a ≤ b) := by
  refine List.pairwise_append.mpr ⟨evenFrom_pairwise c hc _ _, evenFrom_pairwise c hc _ _, ?_⟩
  intro a ha b hb
  obtain ⟨i, hi, rfl⟩ := evenFrom_mem _ _ _ _ ha
  obtain ⟨i2, _, rfl⟩ := evenFrom_mem _ _ _ _ hb
  have h1 : c * (i : Int) ≤ c * (m : Int) := by
    have : (i : Int) ≤ (m : Int) := by exact_mod_cast Nat.lt_succ_iff.mp hi
    exact mul_le_mul_of_nonneg_left this hc
  have h3 : 0 ≤ c * (k : Int) := mul_nonneg hc (by positivity)
  have h4 : 0 ≤ c * (i2 : Int) := mul_nonneg hc (by positivity)
  omega

/-- C7: for the expected cadence derived from the timeframe, an evenly spaced
series produces zero gaps; a single skip of k cadences (k at least 2) produces
exactly one gap with k - 1 missing bars; and in general, over a sorted series,
a consecutive delta is flagged exactly when it strictly exceeds cadence times
the tolerance factor, with missing-bar count floor(delta / cadence) - 1. -/
theorem C7_gap_detection (timeframe : String) (c : Int)
    (hc : get_expected_interval timeframe = .ok c) :
    (∀ (t0 : Int) (n : Nat), 2 ≤ n →
        detect_gaps (evenFrom t0 c n) timeframe (3 / 2) = .ok []) ∧
    (∀ (t0 : Int) (m j k : Nat), 2 ≤ k →
        detect_gaps
          (evenFrom t0 c (m + 1) ++
            evenFrom (t0 + c * (m : Int) + c * (k : Int)) c (j + 1))
          timeframe (3 / 2) =
          .ok [⟨t0 + c * (m : Int), t0 + c * (m : Int) + c * (k : Int),
            (k : Int) - 1⟩]) ∧
    (∀ (tolerance_factor : ℚ) (ts : List Int),
        ts.Pairwise (fun a b => a ≤ b) → 2 ≤ ts.length →
        detect_gaps ts timeframe tolerance_factor =
          .ok ((ts.zip ts.tail).filterMap (fun p =>
            if ((p.2 - p.1 : Int) : ℚ) > (c : ℚ) * tolerance_factor then
              some ⟨p.1, p.2, ⌊((p.2 - p.1 : Int) : ℚ) / (c : ℚ)⌋ - 1⟩
            else none))) := by
  have hcpos : 0 < c := get_expected_interval_pos timeframe c hc
  refine ⟨?_, ?_, ?_⟩
  · intro t0 n hn
    obtain ⟨m, rfl⟩ : ∃ m, n = m + 1 := ⟨n - 1, by omega⟩
    have hlen : ¬ (evenFrom t0 c (m + 1)).length < 2 := by
      rw [evenFrom_length]
      omega
    rw [detect_gaps_reduce _ _ c _ hlen hc,
      mergeSort_intLE_of_sorted _ (evenFrom_pairwise c hcpos.le _ _),
      gapScan_evenFrom c hcpos m t0]
  · intro t0 m j k hk
    have hlen : ¬ (evenFrom t0 c (m + 1) ++
        evenFrom (t0 + c * (m : Int) + c * (k : Int)) c (j + 1)).length < 2 := by
      rw [List.length_append, evenFrom_length, evenFrom_length]
      omega
    rw [detect_gaps_reduce _ _ c _ hlen hc,
      mergeSort_intLE_of_sorted _ (skip_list_sorted c hcpos.le t0 m j k),
      gapScan_skip c hcpos k hk m t0 _ j rfl]
  · intro tolerance_factor ts hsort hlen2
    have hlen : ¬ ts.length < 2 := by omega
    rw [detect_gaps_reduce _ _ c _ hlen hc, mergeSort_intLE_of_sorted _ hsort,
      gapScan_eq_filterMap]
    refine congrArg Except.ok (List.filterMap_congr ?_)
    intro p hp
    have hple : p.1 ≤ p.2 := zip_tail_le ts hsort p hp
    by_cases h : ((p.2 - p.1 : Int) : ℚ) > (c : ℚ) * tolerance_factor
    · rw [if_pos h, if_pos h, tdiv_eq_floor _ _ (by omega) hcpos]
    · rw [if_neg h, if_neg h]

/-- Witness for C7 at the 1m timeframe (cadence 60000 ms): three evenly spaced
bars yield no gap; a skip of two cadences yields one gap with one missing bar;
and the general characterization applied to a concrete sorted pair. -/
theorem C7_gap_detection_witness :
    detect_gaps (evenFrom 0 60000 3) "1m" (3 / 2) = .ok [] ∧
    detect_gaps (evenFrom 0 60000 1 ++ evenFrom (0 + 60000 * (0 : Int) + 60000 * (2 : Int)) 60000 1)
      "1m" (3 / 2) =
      .ok [⟨0 + 60000 * (0 : Int), 0 + 60000 * (0 : Int) + 60000 * (2 : Int), (2 : Int) - 1⟩] ∧
    detect_gaps [0, 200000] "1m" (3 / 2) =
      .ok (([0, 200000] : List Int).zip ([0, 200000] : List Int).tail |>.filterMap (fun p =>
        if ((p.2 - p.1 : Int) : ℚ) > ((60000 : Int) : ℚ) * (3 / 2) then
          some ⟨p.1, p.2, ⌊((p.2 - p.1 : Int) : ℚ) / ((60000 : Int) : ℚ)⌋ - 1⟩
        else none)) := by
  refine ⟨(C7_gap_detection "1m" 60000 rfl).1 0 3 (by decide),
    ?_,
    (C7_gap_detection "1m" 60000 rfl).2.2 (3 / 2) [0, 200000] ?_ (by decide)⟩
  · exact (C7_gap_detection "1m" 60000 rfl).2.1 0 0 0 2 (by decide)
  · refine List.pairwise_cons.mpr ⟨?_, ?_⟩
    · intro b hb
      simp only [List.mem_singleton] at hb
      subst hb
      decide
    · simp

lemma validate_reduce (df : VFrame) (timeframe : String) (check_gaps : Bool)
    (expected : Int) (gs : List Gap)
    (hne : df.rows.isEmpty = false) (hcol : "timestamp" ∈ df.cols)
    (hexp : calculate_expected_bars (listMin (df.rows.map tsKey))
      (listMax (df.rows.map tsKey)) timeframe = .ok expected)
    (hgs : (if check_gaps then detect_gaps (df.rows.map tsKey) timeframe (3 / 2)
      else .ok []) = .ok gs) :
    validate_dataframe df timeframe check_gaps = .ok
      ⟨gs.isEmpty && decide ((df.rows.length : ℚ) ≥ (expected : ℚ) * (99 / 100)),
        df.rows.length, expected, gs,
        (if gs.isEmpty then [] else
          ["Found " ++ toString gs.length ++ " gap(s) in data"]) ++
        (if (df.rows.length : Int) < expected then
          ["Missing " ++ toString (expected - (df.rows.length : Int)) ++
            " bars (have " ++ toString df.rows.length ++ ", expected " ++
            toString expected ++ ")"]
          else [])⟩ := by
  simp only [validate_dataframe, hne, Bool.false_eq_true, if_false,
    not_not_intro hcol, hexp, hgs]

/-- C8: on every non-empty table with a timestamp column and a valid
timeframe, validate returns a report whose expected bar count is
floor(observed span / cadence) + 1 and which is valid exactly when no gap was
detected and the row count is at least 99 percent of the expected count. -/
theorem C8_validate_expected_and_validity (df : VFrame) (timeframe : String)
    (c : Int) (h1 : df.rows ≠ []) (h2 : "timestamp" ∈ df.cols)
    (hc : get_expected_interval timeframe = .ok c) :
    ∃ res, validate_dataframe df timeframe true = .ok res ∧
      res.total_bars = df.rows.length ∧
      res.expected_bars =
        ⌊((listMax (df.rows.map tsKey) - listMin (df.rows.map tsKey) : Int) : ℚ) /
          (c : ℚ)⌋ + 1 ∧
      (res.is_valid = true ↔ (res.gaps = [] ∧
        (res.total_bars : ℚ) ≥ (res.expected_bars : ℚ) * (99 / 100))) := by
  have hcpos : 0 < c := get_expected_interval_pos timeframe c hc
  have hne : df.rows.isEmpty = false := by
    cases h : df.rows.isEmpty
    · rfl
    · exact absurd (List.isEmpty_iff.mp h) h1
  have hmapne : df.rows.map tsKey ≠ [] := by
    simpa using h1
  have hspan : 0 ≤ listMax (df.rows.map tsKey) - listMin (df.rows.map tsKey) := by
    have := listMin_le_listMax (df.rows.map tsKey) hmapne
    omega
  have hexp : calculate_expected_bars (listMin (df.rows.map tsKey))
      (listMax (df.rows.map tsKey)) timeframe =
      .ok ((listMax (df.rows.map tsKey) - listMin (df.rows.map tsKey)).tdiv c + 1) := by
    simp only [calculate_expected_bars, hc]
  have hgaps : ∃ gs, detect_gaps (df.rows.map tsKey) timeframe (3 / 2) = .ok gs := by
    by_cases hlen : (df.rows.map tsKey).length < 2
    · exact ⟨[], by unfold detect_gaps; rw [if_pos hlen]⟩
    · exact ⟨_, detect_gaps_reduce _ _ c _ hlen hc⟩
  obtain ⟨gs, hgs⟩ := hgaps
  refine ⟨_, validate_reduce df timeframe true _ gs hne h2 hexp (by simpa using hgs),
    rfl, ?_, ?_⟩
  · show (listMax (df.rows.map tsKey) - listMin (df.rows.map tsKey)).tdiv c + 1 = _
    rw [tdiv_eq_floor _ _ hspan hcpos]
  · show (gs.isEmpty && decide ((df.rows.length : ℚ) ≥ _ * (99 / 100))) = true ↔ _
    simp [Bool.and_eq_true, List.isEmpty_iff, decide_eq_true_eq]

/-- Witness for C8: a two-row table one minute apart at the 1m timeframe. -/
theorem C8_validate_witness :
    ∃ res, validate_dataframe
        ⟨["timestamp"], [[("timestamp", (0 : Int))], [("timestamp", (60000 : Int))]]⟩
        "1m" true = .ok res ∧
      res.total_bars = ([[("timestamp", (0 : Int))], [("timestamp", (60000 : Int))]] :
        List PRow).length ∧
      res.expected_bars =
        ⌊((listMax (([[("timestamp", (0 : Int))], [("timestamp", (60000 : Int))]] :
            List PRow).map tsKey) -
          listMin (([[("timestamp", (0 : Int))], [("timestamp", (60000 : Int))]] :
            List PRow).map tsKey) : Int) : ℚ) / ((60000 : Int) : ℚ)⌋ + 1 ∧
      (res.is_valid = true ↔ (res.gaps = [] ∧
        (res.total_bars : ℚ) ≥ (res.expected_bars : ℚ) * (99 / 100))) :=
  C8_validate_expected_and_validity
    ⟨["timestamp"], [[("timestamp", (0 : Int))], [("timestamp", (60000 : Int))]]⟩
    "1m" 60000 (by simp) (by simp) rfl

/-- C9: validate raises the structural ValidationError exactly on a non-empty
table lacking a timestamp column, and on every empty table it returns, without
raising, a valid report with zero counts, no gaps, and the emptiness
warning. -/
theorem C9_structural_error_and_empty (df : VFrame) (timeframe : String)
    (check_gaps : Bool) :
    (df.rows = [] → validate_dataframe df timeframe check_gaps =
      .ok ⟨true, 0, 0, [], ["DataFrame is empty"]⟩) ∧
    (isStructuralFailure (validate_dataframe df timeframe check_gaps) = true ↔
      (df.rows ≠ [] ∧ "timestamp" ∉ df.cols)) := by
  constructor
  · intro h0
    simp [validate_dataframe, h0]
  · by_cases hE : df.rows.isEmpty = true
    · have h0 : df.rows = [] := List.isEmpty_iff.mp hE
      simp [validate_dataframe, hE, isStructuralFailure, h0]
    · have h1 : df.rows ≠ [] := fun h0 => hE (List.isEmpty_iff.mpr h0)
      have hne : df.rows.isEmpty = false := by
        cases h : df.rows.isEmpty
        · rfl
        · exact absurd h hE
      by_cases hcol : "timestamp" ∈ df.cols
      · simp only [validate_dataframe, hne, Bool.false_eq_true, if_false,
          not_not_intro hcol]
        cases hx : calculate_expected_bars (listMin (df.rows.map tsKey))
            (listMax (df.rows.map tsKey)) timeframe with
        | error e => simp [isStructuralFailure, hcol]
        | ok expected =>
            cases hy : (if check_gaps then
                detect_gaps (df.rows.map tsKey) timeframe (3 / 2) else .ok []) with
            | error e => simp [hy, isStructuralFailure, hcol]
            | ok gs => simp [hy, isStructuralFailure, hcol]
      · simp [validate_dataframe, hne, hcol, isStructuralFailure, h1]

/-- Witness for C9: the empty clause applied to an empty table, and the
structural clause applied to a non-empty table lacking a timestamp column. -/
theorem C9_structural_error_and_empty_witness :
    validate_dataframe ⟨[], []⟩ "1m" true =
      .ok ⟨true, 0, 0, [], ["DataFrame is empty"]⟩ ∧
    (isStructuralFailure (validate_dataframe ⟨["open"], [[("open", (1 : Int))]]⟩
      "1m" true) = true ↔
      (([[("open", (1 : Int))]] : List PRow) ≠ [] ∧
        "timestamp" ∉ (["open"] : List String))) :=
  ⟨(C9_structural_error_and_empty ⟨[], []⟩ "1m" true).1 rfl,
    (C9_structural_error_and_empty ⟨["open"], [[("open", (1 : Int))]]⟩ "1m" true).2⟩

/-! ## Downloader model (src/binance_ohlcv_collector/downloader.py)

HTTP traffic is an oracle: for the archive URL, a function from attempt index
to that attempt's outcome (a response with status and body bytes, a timeout,
or a connection failure); for the checksum URL, a single fetch outcome.  File
bodies are byte lists; the SHA-256 function is a parameter of the embedding.
Exceptions the source catches become constructors of a result type; the
exceptions it does not catch (httpx transport errors during the checksum
fetch, ValueError from checksum parsing) become an Uncaught error that
propagates through Except.
-/

/-- Outcome of one attempt of client.get on the archive URL. -/
inductive AttemptResult where
  | response (status : Nat) (body : List Nat)
  | timeout
  | connError

/-- Exceptions raised by _download_file_with_retry. -/
inductive DownloadExc where
  | downloadError (msg : String)
  | rateLimitError (msg : String)

/-- Message carried by a DownloadExc (str(e) in the source). -/
def excMessage : DownloadExc → String
  | .downloadError m => m
  | .rateLimitError m => m

/-- Result of the retry loop together with the attempts performed and the
backoff sleeps issued, in order. -/
structure RetryOutcome where
  result : Except DownloadExc (List Nat)
  attempts : Nat
  sleeps : List Nat

/-- An attempt outcome the source treats as retryable: an HTTP error status
other than 404 and 429, a timeout, or a connection failure. -/
def retryable : AttemptResult → Bool
  | .response s _ => decide (400 ≤ s) && decide (s ≠ 404) && decide (s ≠ 429)
  | .timeout => true
  | .connError => true

/-- Classification of one attempt, mirroring the source's except clauses:
a 2xx/3xx response succeeds with its body (raise_for_status does not raise
below 400); 404 raises DownloadError and 429 RateLimitError immediately; any
other HTTP error status, timeout, or connection failure is retryable. -/
inductive StepOutcome where
  | success (body : List Nat)
  | fatal (e : DownloadExc)
  | retryableFailure

/-- The try/except body of one iteration of _download_file_with_retry. -/
def classifyAttempt (url : String) : AttemptResult → StepOutcome
  | .response s body =>
      if 400 ≤ s then
        if s = 404 then .fatal (.downloadError ("File not found: " ++ url))
        else if s = 429 then
          .fatal (.rateLimitError ("Rate limit exceeded for " ++ url))
        else .retryableFailure
      else .success body
  | .timeout => .retryableFailure
  | .connError => .retryableFailure

/-- Model of the attempt loop of _download_file_with_retry.  The source
iterates attempt over range(retries + 1) and tests attempt < retries before
sleeping; here remaining = retries - attempt, so a retryable failure with no
remaining budget raises the exhaustion DownloadError (its message elides the
appended str(last_error) of the source), while with budget remaining the loop
sleeps 2 ^ attempt and retries. -/
def retryLoop (oracle : Nat → AttemptResult) (url : String) :
    Nat → Nat → RetryOutcome
  | a, 0 =>
      match classifyAttempt url (oracle a) with
      | .success body => ⟨.ok body, 1, []⟩
      | .fatal e => ⟨.error e, 1, []⟩
      | .retryableFailure =>
          ⟨.error (.downloadError ("Failed to download " ++ url ++ " after " ++
            toString (a + 1) ++ " attempts")), 1, []⟩
  | a, r + 1 =>
      match classifyAttempt url (oracle a) with
      | .success body => ⟨.ok body, 1, []⟩
      | .fatal e => ⟨.error e, 1, []⟩
      | .retryableFailure =>
          let rest := retryLoop oracle url (a + 1) r
          ⟨rest.result, rest.attempts + 1, 2 ^ a :: rest.sleeps⟩

/-- Model of _download_file_with_retry: run the attempt loop from attempt 0
with a budget of retries further attempts. -/
def _download_file_with_retry (oracle : Nat → AttemptResult) (url : String)
    (retries : Nat) : RetryOutcome :=
  retryLoop oracle url 0 retries

lemma classifyAttempt_of_retryable (url : String) (x : AttemptResult)
    (h : retryable x = true) : classifyAttempt url x = .retryableFailure := by
  cases x with
  | response s body =>
      simp only [retryable, Bool.and_eq_true, decide_eq_true_eq] at h
      simp [classifyAttempt, h.1.1, h.1.2, h.2]
  | timeout => rfl
  | connError => rfl

lemma retryLoop_404 (oracle : Nat → AttemptResult) (url : String)
    (a r : Nat) (body : List Nat) (ho : oracle a = .response 404 body) :
    retryLoop oracle url a r =
      ⟨.error (.downloadError ("File not found: " ++ url)), 1, []⟩ := by
  have hcl : classifyAttempt url (oracle a) =
      .fatal (.downloadError ("File not found: " ++ url)) := by
    rw [ho]
    norm_num [classifyAttempt]
  cases r with
  | zero => rw [retryLoop, hcl]
  | succ r => rw [retryLoop, hcl]

lemma retryLoop_429 (oracle : Nat → AttemptResult) (url : String)
    (a r : Nat) (body : List Nat) (ho : oracle a = .response 429 body) :
    retryLoop oracle url a r =
      ⟨.error (.rateLimitError ("Rate limit exceeded for " ++ url)), 1, []⟩ := by
  have hcl : classifyAttempt url (oracle a) =
      .fatal (.rateLimitError ("Rate limit exceeded for " ++ url)) := by
    rw [ho]
    norm_num [classifyAttempt]
  cases r with
  | zero => rw [retryLoop, hcl]
  | succ r => rw [retryLoop, hcl]

lemma retryLoop_response_ok (oracle : Nat → AttemptResult) (url : String)
    (a r s : Nat) (body : List Nat) (ho : oracle a = .response s body)
    (hs : s < 400) : retryLoop oracle url a r = ⟨.ok body, 1, []⟩ := by
  have hcl : classifyAttempt url (oracle a) = .success body := by
    rw [ho]
    simp [classifyAttempt, Nat.not_le.mpr hs]
  cases r with
  | zero => rw [retryLoop, hcl]
  | succ r => rw [retryLoop, hcl]

lemma retryLoop_retryable_zero (oracle : Nat → AttemptResult) (url : String)
    (a : Nat) (h : retryable (oracle a) = true) :
    retryLoop oracle url a 0 =
      ⟨.error (.downloadError ("Failed to download " ++ url ++ " after " ++
        toString (a + 1) ++ " attempts")), 1, []⟩ := by
  rw [retryLoop, classifyAttempt_of_retryable url (oracle a) h]

lemma retryLoop_retryable_step (oracle : Nat → AttemptResult) (url : String)
    (a r : Nat) (h : retryable (oracle a) = true) :
    retryLoop oracle url a (r + 1) =
      ⟨(retryLoop oracle url (a + 1) r).result,
        (retryLoop oracle url (a + 1) r).attempts + 1,
        2 ^ a :: (retryLoop oracle url (a + 1) r).sleeps⟩ := by
  rw [retryLoop, classifyAttempt_of_retryable url (oracle a) h]

lemma retryLoop_attempts_le (oracle : Nat → AttemptResult) (url : String) :
    ∀ (r a : Nat), (retryLoop oracle url a r).attempts ≤ r + 1 := by
  intro r
  induction r with
  | zero =>
      intro a
      rw [retryLoop]
      cases classifyAttempt url (oracle a) with
      | success body => simp
      | fatal e => simp
      | retryableFailure => simp
  | succ r ih =>
      intro a
      rw [retryLoop]
      cases classifyAttempt url (oracle a) with
      | success body => simp
      | fatal e => simp
      | retryableFailure =>
          have := ih (a + 1)
          simp only []
          omega

lemma retryLoop_prefix (oracle : Nat → AttemptResult) (url : String) :
    ∀ (k a r : Nat), k ≤ r →
    (∀ j, j < k → retryable (oracle (a + j)) = true) →
    retryLoop oracle url a r =
      ⟨(retryLoop oracle url (a + k) (r - k)).result,
        (retryLoop oracle url (a + k) (r - k)).attempts + k,
        ((List.range k).map (fun j => 2 ^ (a + j))) ++
          (retryLoop oracle url (a + k) (r - k)).sleeps⟩ := by
  intro k
  induction k with
  | zero =>
      intro a r _ _
      simp
  | succ k ih =>
      intro a r hkr hj
      obtain ⟨r0, rfl⟩ : ∃ r0, r = r0 + 1 := ⟨r - 1, by omega⟩
      have h0 : retryable (oracle a) = true := by simpa using hj 0 (by omega)
      have hstep := retryLoop_retryable_step oracle url a r0 h0
      have hjs : ∀ j, j < k → retryable (oracle (a + 1 + j)) = true := by
        intro j hjk
        have := hj (j + 1) (by omega)
        rwa [show a + (j + 1) = a + 1 + j from by omega] at this
      have hih := ih (a + 1) r0 (by omega) hjs
      have hidx : a + 1 + k = a + (k + 1) := by omega
      have hrem : r0 - k = r0 + 1 - (k + 1) := by omega
      have hsleeps :
          (List.range (k + 1)).map (fun j => 2 ^ (a + j)) =
            2 ^ a :: (List.range k).map (fun j => 2 ^ (a + 1 + j)) := by
        rw [List.range_succ_eq_map, List.map_cons, List.map_map]
        have hc : ((fun j => 2 ^ (a + j)) ∘ Nat.succ : Nat → Nat) =
            (fun j => 2 ^ (a + 1 + j)) := by
          funext j
          show 2 ^ (a + (j + 1)) = 2 ^ (a + 1 + j)
          rw [show a + (j + 1) = a + 1 + j from by omega]
        rw [hc]
        simp
      rw [hstep, hih, hidx, hrem, hsleeps, List.cons_append]
      dsimp only
      congr 1

/-- C3: the attempt loop performs at most retries + 1 attempts; a 404 at the
first non-retryable attempt fails immediately with the not-found download
error and no further attempts, a 429 likewise with the distinct rate-limit
error; when every attempt in the budget fails retryably the loop sleeps
2 ^ 0, ..., 2 ^ (retries - 1) between attempts and ends with the exhaustion
download error after retries + 1 attempts. -/
theorem C3_retry_budget_and_status (oracle : Nat → AttemptResult) (url : String)
    (retries : Nat) :
    (_download_file_with_retry oracle url retries).attempts ≤ retries + 1 ∧
    (∀ k, k ≤ retries → (∀ j, j < k → retryable (oracle j) = true) →
      (∀ body, oracle k = .response 404 body →
        _download_file_with_retry oracle url retries =
          ⟨.error (.downloadError ("File not found: " ++ url)), k + 1,
            (List.range k).map (fun j => 2 ^ j)⟩) ∧
      (∀ body, oracle k = .response 429 body →
        _download_file_with_retry oracle url retries =
          ⟨.error (.rateLimitError ("Rate limit exceeded for " ++ url)), k + 1,
            (List.range k).map (fun j => 2 ^ j)⟩)) ∧
    ((∀ j, j ≤ retries → retryable (oracle j) = true) →
      _download_file_with_retry oracle url retries =
        ⟨.error (.downloadError ("Failed to download " ++ url ++ " after " ++
          toString (retries + 1) ++ " attempts")), retries + 1,
          (List.range retries).map (fun j => 2 ^ j)⟩) := by
  refine ⟨retryLoop_attempts_le oracle url retries 0, ?_, ?_⟩
  · intro k hk hj
    have hj0 : ∀ j, j < k → retryable (oracle (0 + j)) = true := by
      intro j hjk
      simpa using hj j hjk
    have hpre := retryLoop_prefix oracle url k 0 retries hk hj0
    constructor
    · intro body h404
      have h404r : retryLoop oracle url (0 + k) (retries - k) =
          ⟨.error (.downloadError ("File not found: " ++ url)), 1, []⟩ := by
        refine retryLoop_404 oracle url (0 + k) (retries - k) body ?_
        simpa using h404
      show retryLoop oracle url 0 retries = _
      rw [hpre, h404r]
      simp [Nat.add_comm 1 k]
    · intro body h429
      have h429r : retryLoop oracle url (0 + k) (retries - k) =
          ⟨.error (.rateLimitError ("Rate limit exceeded for " ++ url)), 1, []⟩ := by
        refine retryLoop_429 oracle url (0 + k) (retries - k) body ?_
        simpa using h429
      show retryLoop oracle url 0 retries = _
      rw [hpre, h429r]
      simp [Nat.add_comm 1 k]
  · intro hall
    have hj0 : ∀ j, j < retries → retryable (oracle (0 + j)) = true := by
      intro j hjk
      simpa using hall j (by omega)
    have hpre := retryLoop_prefix oracle url retries 0 retries (le_refl _) hj0
    have hlast : retryLoop oracle url (0 + retries) (retries - retries) =
        ⟨.error (.downloadError ("Failed to download " ++ url ++ " after " ++
          toString ((0 + retries) + 1) ++ " attempts")), 1, []⟩ := by
      rw [Nat.sub_self]
      exact retryLoop_retryable_zero oracle url (0 + retries)
        (by simpa using hall retries (le_refl _))
    show retryLoop oracle url 0 retries = _
    rw [hpre, hlast]
    simp [Nat.add_comm 1 retries]

/-- Witness for C3: an oracle that always times out exhausts a budget of two
retries with backoff sleeps of 1 and 2 time units, and an immediate 404 stops
a fresh loop after a single attempt. -/
theorem C3_retry_budget_and_status_witness :
    _download_file_with_retry (fun _ => .timeout) "u" 2 =
      ⟨.error (.downloadError ("Failed to download " ++ "u" ++ " after " ++
        toString (2 + 1) ++ " attempts")), 2 + 1,
        (List.range 2).map (fun j => 2 ^ j)⟩ ∧
    _download_file_with_retry (fun _ => .response 404 []) "u" 2 =
      ⟨.error (.downloadError ("File not found: " ++ "u")), 0 + 1,
        (List.range 0).map (fun j => 2 ^ j)⟩ :=
  ⟨(C3_retry_budget_and_status (fun _ => .timeout) "u" 2).2.2
      (fun _ _ => rfl),
    ((C3_retry_budget_and_status (fun _ => .response 404 []) "u" 2).2.1 0
      (by omega) (fun j hj => absurd hj (by omega))).1 [] rfl⟩

/-- Outcome of the single client.get on the checksum URL. -/
inductive FetchResult where
  | response (status : Nat) (bodyText : String)
  | timeout
  | connError

/-- Dataclass DownloadTask from downloader.py; paths are rendered as
strings. -/
structure DownloadTask where
  url : String
  checksum_url : String
  output_path : String
  date_str : String

/-- The observable network and filesystem surroundings of one task: the
per-attempt outcomes for the archive URL, the outcome of the checksum fetch,
and the content already present at the destination, if any. -/
structure TaskEnv where
  fileAttempts : Nat → AttemptResult
  checksumFetch : FetchResult
  existing : Option (List Nat)

/-- Dataclass DownloadResult from downloader.py. -/
structure DownloadResult where
  path : String
  success : Bool
  error : Option String
  already_existed : Bool

/-- Exceptions that escape _download_single_file uncaught: an httpx transport
error (TimeoutException or ConnectError) raised while fetching the checksum
resource, and the ValueError raised by _parse_checksum_file on a body with no
token; neither is in the except clauses of the source. -/
inductive Uncaught where
  | transportError
  | valueError

/-- Python str.lower(), character by character. -/
def strLower (s : String) : String := String.mk (s.data.map Char.toLower)

/-- Model of _verify_checksum: the hex digest of the written bytes compared
case-insensitively against the expected digest.  The SHA-256 function itself
is a parameter of the embedding. -/
def _verify_checksum (sha256 : List Nat → String) (content : List Nat)
    (expected : String) : Bool :=
  strLower (sha256 content) == strLower expected

/-- Helper for splitTokens: scan the character list, accumulating the current
token in reverse; whitespace finishes a token, and empty pieces are never
emitted. -/
def splitWsAux : List Char → List Char → List String
  | [], acc => if acc.isEmpty then [] else [String.mk acc.reverse]
  | c :: cs, acc =>
      if c.isWhitespace then
        (if acc.isEmpty then [] else [String.mk acc.reverse]) ++ splitWsAux cs []
      else splitWsAux cs (c :: acc)

/-- Python content.strip().split(): split on whitespace runs, discarding empty
pieces (the strip is subsumed by split() discarding leading and trailing
runs). -/
def splitTokens (content : String) : List String :=
  splitWsAux content.data []

/-- Model of _parse_checksum_file: the first whitespace-delimited token, or
the uncaught ValueError when there is none. -/
def _parse_checksum_file (content : String) : Except Uncaught String :=
  match splitTokens content with
  | tok :: _ => .ok tok
  | [] => .error .valueError

/-- Model of _download_single_file.  The value paired with the DownloadResult
is the content left at the destination path: the pre-existing content on the
skip path and on download failure, the downloaded bytes on success, and none
after a checksum mismatch deletes the file.  A checksum response with an HTTP
error status is swallowed by the except-HTTPStatusError-pass clause; a
transport error or an empty checksum body escapes as an Uncaught error. -/
def _download_single_file (sha256 : List Nat → String) (task : DownloadTask)
    (env : TaskEnv) (verify force : Bool) (retries : Nat) :
    Except Uncaught (DownloadResult × Option (List Nat)) :=
  if env.existing.isSome && !force then
    .ok (⟨task.output_path, true, none, true⟩, env.existing)
  else
    match (_download_file_with_retry env.fileAttempts task.url retries).result with
    | .error e => .ok (⟨task.output_path, false, some (excMessage e), false⟩,
        env.existing)
    | .ok content =>
        if verify then
          match env.checksumFetch with
          | .timeout => .error .transportError
          | .connError => .error .transportError
          | .response s body =>
              if 400 ≤ s then
                .ok (⟨task.output_path, true, none, false⟩, some content)
              else
                match _parse_checksum_file body with
                | .error u => .error u
                | .ok expected =>
                    if _verify_checksum sha256 content expected then
                      .ok (⟨task.output_path, true, none, false⟩, some content)
                    else
                      .ok (⟨task.output_path, false,
                        some ("Checksum mismatch for " ++ task.output_path),
                        false⟩, none)
        else .ok (⟨task.output_path, true, none, false⟩, some content)

/-- Model of download_files_async over per-task environments: asyncio.gather
returns the per-task results in the order of its argument list, the semaphore
and the shared client do not alter any per-task result, and the first uncaught
exception aborts the whole call; sequential mapM over Except captures exactly
this observable behavior. -/
def download_files_async (sha256 : List Nat → String)
    (taskEnvs : List (DownloadTask × TaskEnv)) (verify force : Bool)
    (retries : Nat) : Except Uncaught (List DownloadResult) :=
  taskEnvs.mapM (fun p =>
    (_download_single_file sha256 p.1 p.2 verify force retries).map Prod.fst)

lemma except_bind_ok {ε α β : Type} (a : α) (g : α → Except ε β) :
    (Except.ok a >>= g : Except ε β) = g a := rfl

lemma except_bind_error {ε α β : Type} (e : ε) (g : α → Except ε β) :
    (Except.error e >>= g : Except ε β) = .error e := rfl

lemma except_pure {ε α : Type} (a : α) : (pure a : Except ε α) = .ok a := rfl

lemma mapM_except_ok {α β ε : Type} (f : α → Except ε β) :
    ∀ (l : List α) (res : List β), l.mapM f = .ok res →
      res.length = l.length ∧ ∀ p ∈ l.zip res, f p.1 = .ok p.2 := by
  intro l
  induction l with
  | nil =>
      intro res h
      rw [List.mapM_nil, except_pure] at h
      cases h
      simp
  | cons a l ih =>
      intro res h
      rw [List.mapM_cons] at h
      cases hfa : f a with
      | error e =>
          rw [hfa, except_bind_error] at h
          cases h
      | ok b =>
          rw [hfa, except_bind_ok] at h
          cases hrest : l.mapM f with
          | error e =>
              rw [hrest, except_bind_error] at h
              cases h
          | ok bs =>
              rw [hrest, except_bind_ok, except_pure] at h
              cases h
              obtain ⟨hlen, hmem⟩ := ih bs hrest
              refine ⟨by simp [hlen], ?_⟩
              intro p hp
              rcases List.mem_cons.mp hp with hp | hp
              · subst hp
                exact hfa
              · exact hmem p hp

lemma single_file_reduce (sha256 : List Nat → String) (task : DownloadTask)
    (env : TaskEnv) (retries : Nat) (content : List Nat) (s : Nat) (body : String)
    (hexist : env.existing = none)
    (hdl : (_download_file_with_retry env.fileAttempts task.url retries).result =
      .ok content)
    (henv : env.checksumFetch = .response s body) :
    _download_single_file sha256 task env true false retries =
      (if 400 ≤ s then
        .ok (⟨task.output_path, true, none, false⟩, some content)
      else
        match _parse_checksum_file body with
        | .error u => .error u
        | .ok expected =>
            if _verify_checksum sha256 content expected then
              .ok (⟨task.output_path, true, none, false⟩, some content)
            else
              .ok (⟨task.output_path, false,
                some ("Checksum mismatch for " ++ task.output_path), false⟩,
                none)) := by
  unfold _download_single_file
  rw [hexist, hdl, henv]
  rfl

/-- C4: with verification enabled, the expected digest is the first
whitespace-delimited token of the checksum body; on digest mismatch the
downloaded file is removed from the destination and the outcome is a checksum
failure; on match the download succeeds with the bytes in place; an HTTP
error status from the checksum resource skips verification silently and the
download still succeeds; and the digest comparison is insensitive to the case
of the expected digest. -/
theorem C4_checksum_verification (sha256 : List Nat → String)
    (task : DownloadTask) (env : TaskEnv) (retries : Nat) (content : List Nat)
    (hexist : env.existing = none)
    (hdl : (_download_file_with_retry env.fileAttempts task.url retries).result =
      .ok content) :
    (∀ (body tok : String) (rest : List String), splitTokens body = tok :: rest →
        _parse_checksum_file body = .ok tok) ∧
    (∀ (s : Nat) (body expected : String), env.checksumFetch = .response s body →
        s < 400 → _parse_checksum_file body = .ok expected →
        ((_verify_checksum sha256 content expected = false →
            _download_single_file sha256 task env true false retries =
              .ok (⟨task.output_path, false,
                some ("Checksum mismatch for " ++ task.output_path), false⟩,
                none)) ∧
         (_verify_checksum sha256 content expected = true →
            _download_single_file sha256 task env true false retries =
              .ok (⟨task.output_path, true, none, false⟩, some content)))) ∧
    (∀ (s : Nat) (body : String), env.checksumFetch = .response s body →
        400 ≤ s →
        _download_single_file sha256 task env true false retries =
          .ok (⟨task.output_path, true, none, false⟩, some content)) ∧
    (∀ e1 e2 : String, strLower e1 = strLower e2 →
        _verify_checksum sha256 content e1 = _verify_checksum sha256 content e2) := by
  refine ⟨?_, ?_, ?_, ?_⟩
  · intro body tok rest hsplit
    unfold _parse_checksum_file
    rw [hsplit]
  · intro s body expected henv hs hparse
    have hred := single_file_reduce sha256 task env retries content s body
      hexist hdl henv
    rw [if_neg (Nat.not_le.mpr hs), hparse] at hred
    constructor
    · intro hmis
      rw [hred]
      simp only [hmis, Bool.false_eq_true, if_false]
    · intro hmatch
      rw [hred]
      simp only [hmatch, if_true]
  · intro s body henv hs
    have hred := single_file_reduce sha256 task env retries content s body
      hexist hdl henv
    rw [if_pos hs] at hred
    exact hred
  · intro e1 e2 h
    unfold _verify_checksum
    rw [h]

/-- Witness for C4 at a concrete environment: the archive downloads in one
attempt; the checksum body carries the digest "aa" with a filename tail;
sha256 is instantiated by a function returning "AA", which matches
case-insensitively; and a 404 on the checksum resource also succeeds. -/
theorem C4_checksum_verification_witness :
    _parse_checksum_file "aa  f.zip" = .ok "aa" ∧
    _download_single_file (fun _ => "AA")
      ⟨"u", "u.CHECKSUM", "out.zip", "2024-01"⟩
      ⟨fun _ => .response 200 [7], .response 200 "aa  f.zip", none⟩
      true false 3 = .ok (⟨"out.zip", true, none, false⟩, some [7]) ∧
    _download_single_file (fun _ => "AA")
      ⟨"u", "u.CHECKSUM", "out.zip", "2024-01"⟩
      ⟨fun _ => .response 200 [7], .response 404 "", none⟩
      true false 3 = .ok (⟨"out.zip", true, none, false⟩, some [7]) := by
  have hdl1 : (_download_file_with_retry
      (fun _ => AttemptResult.response 200 [7]) "u" 3).result = .ok [7] := by
    rw [_download_file_with_retry,
      retryLoop_response_ok (fun _ => AttemptResult.response 200 [7]) "u" 0 3 200 [7]
        rfl (by omega)]
  refine ⟨rfl, ?_, ?_⟩
  · exact ((C4_checksum_verification (fun _ => "AA")
      ⟨"u", "u.CHECKSUM", "out.zip", "2024-01"⟩
      ⟨fun _ => .response 200 [7], .response 200 "aa  f.zip", none⟩
      3 [7] rfl hdl1).2.1 200 "aa  f.zip" "aa" rfl (by omega) rfl).2 rfl
  · exact (C4_checksum_verification (fun _ => "AA")
      ⟨"u", "u.CHECKSUM", "out.zip", "2024-01"⟩
      ⟨fun _ => .response 200 [7], .response 404 "", none⟩
      3 [7] rfl hdl1).2.2.1 404 "" rfl (by omega)

/-- C2 failing input: one descriptor whose archive download succeeds but whose
checksum fetch times out; the httpx transport error is not in any except
clause of _download_single_file, so it propagates out of asyncio.gather and
aborts the whole call instead of being recorded in that descriptor's
outcome. -/
theorem C2_checksum_transport_error_aborts_call :
    download_files_async (fun _ => "aa")
      [(⟨"https://x/f.zip", "https://x/f.zip.CHECKSUM", "out/f.zip", "2024-01"⟩,
        ⟨fun _ => .response 200 [1, 2, 3], .timeout, none⟩)]
      true false 3 = .error .transportError := by
  rfl

/-- C10: whenever download_files_async returns a result list, it has exactly
one entry per input task and the entry at each index is the outcome of the
single-file download of the task at that same index. -/
theorem C10_results_in_input_order (sha256 : List Nat → String)
    (taskEnvs : List (DownloadTask × TaskEnv)) (verify force : Bool)
    (retries : Nat) (results : List DownloadResult)
    (h : download_files_async sha256 taskEnvs verify force retries = .ok results) :
    results.length = taskEnvs.length ∧
    ∀ p ∈ taskEnvs.zip results,
      (_download_single_file sha256 p.1.1 p.1.2 verify force retries).map
        Prod.fst = .ok p.2 := by
  exact mapM_except_ok _ taskEnvs results h

/-- Witness for C10: a single successful task with verification disabled. -/
theorem C10_results_in_input_order_witness :
    ([⟨"o", true, none, false⟩] : List DownloadResult).length =
      ([(⟨"u", "c", "o", "d"⟩, ⟨fun _ => .response 200 [5], .timeout, none⟩)] :
        List (DownloadTask × TaskEnv)).length ∧
    ∀ p ∈ ([(⟨"u", "c", "o", "d"⟩, ⟨fun _ => .response 200 [5], .timeout, none⟩)] :
        List (DownloadTask × TaskEnv)).zip
        ([⟨"o", true, none, false⟩] : List DownloadResult),
      (_download_single_file (fun _ => "aa") p.1.1 p.1.2 false false 0).map
        Prod.fst = .ok p.2 :=
  C10_results_in_input_order (fun _ => "aa")
    [(⟨"u", "c", "o", "d"⟩, ⟨fun _ => .response 200 [5], .timeout, none⟩)]
    false false 0 [⟨"o", true, none, false⟩] rfl

/-! ## Planner model (create_download_tasks in downloader.py)

Dates are explicit year/month/day records; Python date objects compare
lexicographically on (year, month, day), which dateLE mirrors.  The two while
loops of _generate_date_range are embedded with an explicit iteration bound
that exceeds the number of days (respectively months) from year 0 through the
end date, so the bound is never the reason a loop stops; the loop condition is
the source's comparison against the start date. -/

structure PDate where
  year : Nat
  month : Nat
  day : Nat

/-- Python date comparison, lexicographic on (year, month, day). -/
def dateLE (a b : PDate) : Bool :=
  decide (a.year < b.year ∨ (a.year = b.year ∧ (a.month < b.month ∨
    (a.month = b.month ∧ a.day ≤ b.day))))

/-- Gregorian leap year rule. -/
def isLeapYear (y : Nat) : Bool :=
  (y % 4 == 0 && y % 100 != 0) || y % 400 == 0

/-- Number of days in a month (the catch-all arm is unreachable for valid
months). -/
def daysInMonth (y m : Nat) : Nat :=
  if m = 1 ∨ m = 3 ∨ m = 5 ∨ m = 7 ∨ m = 8 ∨ m = 10 ∨ m = 12 then 31
  else if m = 2 then (if isLeapYear y then 29 else 28)
  else 30

/-- Python date minus timedelta(days=1). -/
def predDay (d : PDate) : PDate :=
  if 1 < d.day then ⟨d.year, d.month, d.day - 1⟩
  else if 1 < d.month then ⟨d.year, d.month - 1, daysInMonth d.year (d.month - 1)⟩
  else ⟨d.year - 1, 12, 31⟩

/-- The source's (current - timedelta(days=1)).replace(day=1) applied to a
first-of-month date: the first day of the previous month. -/
def prevMonthFirst (d : PDate) : PDate :=
  let p := predDay ⟨d.year, d.month, 1⟩
  ⟨p.year, p.month, 1⟩

/-- Zero-padded decimal rendering, two digits (strftime %m / %d). -/
def pad2 (n : Nat) : String :=
  if n < 10 then "0" ++ toString n else toString n

/-- Zero-padded decimal rendering, four digits (strftime %Y). -/
def pad4 (n : Nat) : String :=
  if n < 10 then "000" ++ toString n
  else if n < 100 then "00" ++ toString n
  else if n < 1000 then "0" ++ toString n
  else toString n

/-- strftime("%Y-%m"). -/
def fmtMonth (d : PDate) : String := pad4 d.year ++ "-" ++ pad2 d.month

/-- strftime("%Y-%m-%d"). -/
def fmtDay (d : PDate) : String := fmtMonth d ++ "-" ++ pad2 d.day

/-- Loop body of _generate_month_strings: n month labels walking backwards
from a first-of-month date. -/
def genMonthsBack (current : PDate) : Nat → List String
  | 0 => []
  | n + 1 => fmtMonth current :: genMonthsBack (prevMonthFirst current) n

/-- Model of _generate_month_strings. -/
def _generate_month_strings (end_date : PDate) (num_months : Nat) : List String :=
  genMonthsBack ⟨end_date.year, end_date.month, 1⟩ num_months

/-- Loop body of _generate_day_strings: n day labels walking backwards. -/
def genDaysBack (current : PDate) : Nat → List String
  | 0 => []
  | n + 1 => fmtDay current :: genDaysBack (predDay current) n

/-- Model of _generate_day_strings. -/
def _generate_day_strings (end_date : PDate) (num_days : Nat) : List String :=
  genDaysBack end_date num_days

/-- The daily while loop of _generate_date_range: labels from current down
while current is not before start.  The fuel argument only bounds the
iteration count; with the bounds below it never cuts the loop short for valid
dates. -/
def genDailyRange (start : PDate) : PDate → Nat → List String
  | _, 0 => []
  | current, fuel + 1 =>
      if dateLE start current then
        fmtDay current :: genDailyRange start (predDay current) fuel
      else []

/-- The monthly while loop of _generate_date_range over first-of-month
dates. -/
def genMonthlyRange (start : PDate) : PDate → Nat → List String
  | _, 0 => []
  | current, fuel + 1 =>
      if dateLE start current then
        fmtMonth current :: genMonthlyRange start (prevMonthFirst current) fuel
      else []

/-- Iteration bound for the daily loop: more than the days in years
0..end.year. -/
def dailyFuel (e : PDate) : Nat := (e.year + 1) * 366 + 400

/-- Iteration bound for the monthly loop. -/
def monthlyFuel (e : PDate) : Nat := (e.year + 1) * 12 + 24

/-- Download granularity. -/
inductive Granularity where
  | daily
  | monthly

/-- The string value of a granularity (the Literal values in config.py). -/
def granStr : Granularity → String
  | .daily => "daily"
  | .monthly => "monthly"

/-- Model of _generate_date_range. -/
def _generate_date_range (start_date end_date : PDate)
    (granularity : Granularity) : List String :=
  match granularity with
  | .monthly =>
      genMonthlyRange ⟨start_date.year, start_date.month, 1⟩
        ⟨end_date.year, end_date.month, 1⟩ (monthlyFuel end_date)
  | .daily => genDailyRange start_date end_date (dailyFuel end_date)

/-- Market types from config.py. -/
inductive MarketType where
  | spot
  | futures_usdt
  | futures_coin

/-- MARKET_TYPE_PATHS from config.py. -/
def marketTypePath : MarketType → String
  | .spot => "spot"
  | .futures_usdt => "futures/um"
  | .futures_coin => "futures/cm"

/-- The .value strings of MarketType. -/
def marketTypeValue : MarketType → String
  | .spot => "spot"
  | .futures_usdt => "futures-usdt"
  | .futures_coin => "futures-coin"

/-- BINANCE_VISION_BASE_URL from config.py. -/
def BINANCE_VISION_BASE_URL : String := "https://data.binance.vision/data"

/-- Model of _construct_url. -/
def _construct_url (symbol timeframe date_str : String)
    (market_type : MarketType) (granularity : Granularity) : String :=
  BINANCE_VISION_BASE_URL ++ "/" ++ marketTypePath market_type ++ "/" ++
    granStr granularity ++ "/klines/" ++ symbol ++ "/" ++ timeframe ++ "/" ++
    (symbol ++ "-" ++ timeframe ++ "-" ++ date_str ++ ".zip")

/-- Model of _construct_checksum_url. -/
def _construct_checksum_url (file_url : String) : String :=
  file_url ++ ".CHECKSUM"

/-- Model of create_download_tasks; today stands for datetime.now().date().
The date-specification branches follow the source: an absolute range when both
endpoints are given (daily granularity when the end date is on or after the
first of the current month, monthly otherwise), else N days back from
yesterday, else N months back from the last complete month, else the
ValueError. -/
def create_download_tasks (symbol timeframe : String) (market_type : MarketType)
    (output_dir : String) (today : PDate) (start_date end_date : Option PDate)
    (months days : Option Nat) :
    Except String (List DownloadTask × Granularity) :=
  let pick : Except String (Granularity × List String) :=
    match start_date, end_date with
    | some s, some e =>
        if dateLE ⟨today.year, today.month, 1⟩ e then
          .ok (.daily, _generate_date_range s e .daily)
        else
          .ok (.monthly, _generate_date_range s e .monthly)
    | _, _ =>
        match days with
        | some d => .ok (.daily, _generate_day_strings (predDay today) d)
        | none =>
            match months with
            | some m =>
                .ok (.monthly,
                  _generate_month_strings (predDay ⟨today.year, today.month, 1⟩) m)
            | none => .error "Must specify either start_date/end_date, months, or days"
  match pick with
  | .error e => .error e
  | .ok (granularity, date_strings) =>
      let raw_dir := output_dir ++ "/raw/" ++ marketTypeValue market_type ++ "/" ++
        symbol ++ "_" ++ timeframe ++ "/" ++ granStr granularity
      .ok (date_strings.map (fun ds =>
        let url := _construct_url symbol timeframe ds market_type granularity
        ⟨url, _construct_checksum_url url,
          raw_dir ++ "/" ++ (symbol ++ "-" ++ timeframe ++ "-" ++ ds ++ ".zip"),
          ds⟩), granularity)

/-- Recognizer for a planner call that returned without raising. -/
def exceptIsOk {ε α : Type} : Except ε α → Bool
  | .ok _ => true
  | .error _ => false

/-- C5 counterexample: with start 2024-03-20 strictly after end 2024-03-10
(both supplied), the planner does not fail: it returns a task list (here the
monthly branch even emits one task for 2024-03), refuting the claim that
start > end raises an invalid-date-spec error. -/
theorem C5_start_after_end_does_not_fail :
    dateLE ⟨2024, 3, 20⟩ ⟨2024, 3, 10⟩ = false ∧
    exceptIsOk (create_download_tasks "ETHUSDT" "15m" .futures_usdt "data"
      ⟨2024, 6, 15⟩ (some ⟨2024, 3, 20⟩) (some ⟨2024, 3, 10⟩)
      none none) = true := by
  constructor
  · rfl
  · rfl

/-- C5 amended: the planner fails with the invalid-date-spec ValueError
exactly when neither both endpoints of an absolute range nor a relative days
or months count is supplied; in every other case, including start > end, it
returns a task list without raising. -/
theorem C5_invalid_date_spec_amended (symbol timeframe : String)
    (market_type : MarketType) (output_dir : String) (today : PDate)
    (start_date end_date : Option PDate) (months days : Option Nat) :
    exceptIsOk (create_download_tasks symbol timeframe market_type output_dir
      today start_date end_date months days) = false ↔
      (¬ (start_date.isSome ∧ end_date.isSome) ∧ days = none ∧ months = none) := by
  cases start_date with
  | some s =>
      cases end_date with
      | some e =>
          by_cases hc : (dateLE ⟨today.year, today.month, 1⟩ e) = true
          · simp [create_download_tasks, exceptIsOk, hc]
          · simp only [Bool.not_eq_true] at hc
            simp [create_download_tasks, exceptIsOk, hc]
      | none =>
          cases days with
          | some d => simp [create_download_tasks, exceptIsOk]
          | none =>
              cases months with
              | some m => simp [create_download_tasks, exceptIsOk]
              | none => simp [create_download_tasks, exceptIsOk]
  | none =>
      cases days with
      | some d => simp [create_download_tasks, exceptIsOk]
      | none =>
          cases months with
          | some m => simp [create_download_tasks, exceptIsOk]
          | none => simp [create_download_tasks, exceptIsOk]

/-- Projection of the planner result onto the granularity it selected. -/
def plannerGranularity (x : Except String (List DownloadTask × Granularity)) :
    Option Granularity :=
  match x with
  | .ok (_, g) => some g
  | .error _ => none

/-- C6: for a valid absolute range, the planner picks daily granularity when
the end date lies in the current calendar month, and monthly granularity when
it lies in an earlier month. -/
theorem C6_granularity_selection (symbol timeframe : String)
    (market_type : MarketType) (output_dir : String) (today : PDate)
    (s e : PDate) (months days : Option Nat)
    (hval : 1 ≤ e.day) (_hrange : dateLE s e = true) :
    ∀ g, plannerGranularity (create_download_tasks symbol timeframe market_type
      output_dir today (some s) (some e) months days) = some g →
      ((e.year = today.year ∧ e.month = today.month → g = .daily) ∧
       ((e.year < today.year ∨ (e.year = today.year ∧ e.month < today.month)) →
         g = .monthly)) := by
  intro g heq
  by_cases hc : (dateLE ⟨today.year, today.month, 1⟩ e) = true
  · simp only [create_download_tasks, hc, if_true, plannerGranularity,
      Option.some.injEq] at heq
    constructor
    · intro _
      exact heq.symm
    · intro hbefore
      exfalso
      simp only [dateLE, decide_eq_true_eq] at hc
      omega
  · simp only [Bool.not_eq_true] at hc
    simp only [create_download_tasks, hc, Bool.false_eq_true, if_false,
      plannerGranularity, Option.some.injEq] at heq
    constructor
    · intro hin
      exfalso
      have hc2 : dateLE ⟨today.year, today.month, 1⟩ e = true := by
        simp only [dateLE, decide_eq_true_eq]
        omega
      rw [hc2] at hc
      cases hc
    · intro _
      exact heq.symm

/-- Witness for C6: seen from 2024-06-15, the range 2024-03-01 to 2024-03-10
(end before the current month) selects monthly granularity, and the range
2024-06-01 to 2024-06-10 (end in the current month) selects daily
granularity. -/
theorem C6_granularity_selection_witness :
    Granularity.monthly = .monthly ∧ Granularity.daily = .daily :=
  ⟨(C6_granularity_selection "ETHUSDT" "15m" .futures_usdt "data"
      ⟨2024, 6, 15⟩ ⟨2024, 3, 1⟩ ⟨2024, 3, 10⟩ none none (by decide) (by decide)
      .monthly rfl).2 (by decide),
   (C6_granularity_selection "ETHUSDT" "15m" .futures_usdt "data"
      ⟨2024, 6, 15⟩ ⟨2024, 6, 1⟩ ⟨2024, 6, 10⟩ none none (by decide) (by decide)
      .daily rfl).1 (by exact ⟨rfl, rfl⟩)⟩
